import Mathlib

set_option maxHeartbeats 1000000

/-!
Shallow embedding of the component-resolution and metrics core of the
weaver repository: `src/component.go` and `src/runtime/codegen/metrics.go`.
-/

namespace Weaver

/-- Modelled from the spec: a metric counter instrument (the `metrics`
package is not under `src/`); it holds the current count and supports
increment. -/
structure Counter where
  count : Nat
deriving DecidableEq

/-- Counter increment (`metrics.Counter.Inc`), as used by `MethodMetrics.End`. -/
def Counter.Inc (c : Counter) : Counter := ⟨c.count + 1⟩

/-- Modelled from the spec: a metric histogram instrument (the `metrics`
package is not under `src/`); abstracted as the list of observations
recorded so far, most recent first. -/
structure Histogram where
  observations : List Int
deriving DecidableEq

/-- Histogram observation (`metrics.Histogram.Put`), as used by
`MethodMetrics.End`. -/
def Histogram.Put (h : Histogram) (v : Int) : Histogram := ⟨v :: h.observations⟩

/-- `MethodLabels` from `src/runtime/codegen/metrics.go`. -/
structure MethodLabels where
  Caller : String
  Component : String
  Method : String
  Remote : Bool
deriving DecidableEq

/-- `MethodMetrics` from `src/runtime/codegen/metrics.go`: the metric
instruments for a single component method. -/
structure MethodMetrics where
  remote : Bool
  Count : Counter
  ErrorCount : Counter
  Latency : Histogram
  BytesRequest : Histogram
  BytesReply : Histogram
deriving DecidableEq

/-- `MethodMetricsFor` from `src/runtime/codegen/metrics.go`. The five
process-global metric maps (`MethodCounts`, `MethodErrors`,
`MethodLatencies`, `MethodBytesRequest`, `MethodBytesReply`) are passed in
as the per-label lookup functions they are read through. -/
def MethodMetricsFor (methodCounts methodErrors : MethodLabels → Counter)
    (methodLatencies methodBytesRequest methodBytesReply : MethodLabels → Histogram)
    (labels : MethodLabels) : MethodMetrics :=
  { remote := labels.Remote
    Count := methodCounts labels
    ErrorCount := methodErrors labels
    Latency := methodLatencies labels
    BytesRequest := methodBytesRequest labels
    BytesReply := methodBytesReply labels }

/-- `MethodCallHandle` from `src/runtime/codegen/metrics.go`: the start
timestamp captured by `Begin`. Time is an integer monotonic-clock reading
in nanoseconds. -/
structure MethodCallHandle where
  start : Int
deriving DecidableEq

/-- `MethodMetrics.Begin` from `src/runtime/codegen/metrics.go`: captures
the current time in a handle. The receiver is threaded through so that its
non-mutation is a provable statement. -/
def MethodMetrics.Begin (m : MethodMetrics) (now : Int) :
    MethodCallHandle × MethodMetrics :=
  (⟨now⟩, m)

/-- Go `time.Duration.Microseconds`: division of the nanosecond count by
1000, truncating toward zero. -/
def durationMicroseconds (d : Int) : Int := Int.tdiv d 1000

/-- `MethodMetrics.End` from `src/runtime/codegen/metrics.go`.
`time.Since(h.start)` is `now - h.start`, with `now` the current
monotonic-clock reading. -/
def MethodMetrics.End (m : MethodMetrics) (h : MethodCallHandle) (failed : Bool)
    (requestBytes replyBytes : Int) (now : Int) : MethodMetrics :=
  let latency := durationMicroseconds (now - h.start)
  let m1 : MethodMetrics := { m with Count := m.Count.Inc }
  let m2 : MethodMetrics :=
    if failed then { m1 with ErrorCount := m1.ErrorCount.Inc } else m1
  let m3 : MethodMetrics := { m2 with Latency := m2.Latency.Put latency }
  if m3.remote then
    { m3 with BytesRequest := m3.BytesRequest.Put requestBytes
              BytesReply := m3.BytesReply.Put replyBytes }
  else m3

/-- `Listener` from `src/component.go`: the string form of the underlying
bound socket address (`l.Addr().String()`) together with the `proxyAddr`
field. -/
structure Listener where
  addr : String
  proxyAddr : String
deriving DecidableEq

/-- `Listener.ProxyAddr` from `src/component.go`. -/
def Listener.ProxyAddr (l : Listener) : String := l.proxyAddr

/-- `Listener.String` from `src/component.go`: the proxy address if
non-empty, otherwise the bound address. -/
def Listener.String (l : Listener) : String :=
  if l.proxyAddr ≠ "" then l.proxyAddr else l.addr

/-- `Ref` from `src/component.go`: a typed handle holding its private
`value` field, filled at binding time. -/
structure Ref (T : Type) where
  value : T

/-- `Ref.Get` from `src/component.go`: returns the stored value. -/
def Ref.Get {T : Type} (r : Ref T) : T := r.value

/-- `WithConfig` from `src/component.go`. -/
structure WithConfig (T : Type) where
  config : T

/-- `WithConfig.Config` from `src/component.go`: returns the embedded
configuration value. -/
def WithConfig.Config {T : Type} (wc : WithConfig T) : T := wc.config

/-- Modelled from the spec: a value in a component configuration section
or configuration-struct field. -/
inductive ConfigValue where
  | int (n : Int)
  | str (s : String)
deriving DecidableEq

/-- Modelled from the spec: binding of a component `WithConfig` section
(the binding machinery is not under `src/`; only the `WithConfig.Config`
accessor is). The config struct `T` is given as its field names paired
with their zero values; the config-file section is a flat key-value list.
A file key that is not a field of `T` is a startup error; a field of `T`
with no file key takes its zero value. -/
def bindConfig (tFields : List (String × ConfigValue))
    (file : List (String × ConfigValue)) :
    Except String (List (String × ConfigValue)) :=
  if file.all (fun kv => tFields.any (fun f => f.1 == kv.1)) then
    .ok (tFields.map (fun f =>
      match file.find? (fun kv => kv.1 == f.1) with
      | some kv => (f.1, kv.2)
      | none => (f.1, f.2)))
  else
    .error "unknown config key"

/-- The argument type of the `routedBy` method that Go method-set
promotion selects for a component implementation struct.
`componentImpl` (reached through the embedded `Implements`, at depth two)
has `routedBy` taking the sentinel type
`if_youre_seeing_this_you_probably_forgot_to_run_weaver_generate`
(`src/component.go` line 144); `WithRouter T` (embedded at depth one) has
`routedBy` taking `T` (line 290). The shallower method wins promotion. -/
inductive RoutedByArg where
  | sentinel
  | routerType (name : String)
deriving DecidableEq

/-- A component implementation struct, as far as routing is concerned: it
always embeds `Implements` (hence `componentImpl`), and optionally embeds
`WithRouter R` for a router type named `R`. -/
structure ComponentImplType where
  withRouter : Option String
deriving DecidableEq

/-- Go method-set promotion of `routedBy` for a component implementation
struct: the depth-one `WithRouter.routedBy` when present, otherwise the
depth-two `componentImpl.routedBy` taking the sentinel. -/
def promotedRoutedBy (t : ComponentImplType) : RoutedByArg :=
  match t.withRouter with
  | some r => .routerType r
  | none => .sentinel

/-- `t` satisfies the `RoutedBy R` interface (`src/component.go` lines
292-296) iff its promoted `routedBy` takes the router type `R`. -/
def satisfiesRoutedBy (t : ComponentImplType) (r : String) : Prop :=
  promotedRoutedBy t = .routerType r

/-- `t` satisfies the `Unrouted` interface (`src/component.go` lines
298-302) iff its promoted `routedBy` takes the sentinel type. -/
def satisfiesUnrouted (t : ComponentImplType) : Prop :=
  promotedRoutedBy t = .sentinel

/-- `t` carries an explicit routing declaration, i.e. embeds
`WithRouter R` for some router type `R`. -/
def hasRoutingDeclaration (t : ComponentImplType) : Prop :=
  t.withRouter ≠ none

/-- The implementation struct of a component that embeds no `WithRouter`. -/
def bareImpl : ComponentImplType := ⟨none⟩

/-- Modelled from the spec: the status of one lazy cell of a `component`
(`src/component.go` lines 73-94: the `sync.Once` together with its cached
result fields; the `Do` call sites are not under `src/`). -/
inductive CellStatus (α : Type) where
  | unstarted
  | running (runner : Nat)
  | done (result : α)
deriving DecidableEq

/-- Modelled from the spec: the state of one lazy cell under concurrent
access by callers `0, 1, ...`: the cell status, the number of times the
initializer has been executed, and per caller the result the caller has
returned with (`none` while the caller has not yet returned). -/
structure OnceState (α : Type) where
  cell : CellStatus α
  execCount : Nat
  finished : List (Option α)
deriving DecidableEq

/-- Modelled from the spec: atomic steps of the one-time-initialization
protocol of section 4.2: a caller wins the race and starts the
initializer; the running initializer completes; a caller reads the cached
result (this is also how callers blocked during the run return). -/
inductive CellAction where
  | start (i : Nat)
  | finish
  | observe (i : Nat)
deriving DecidableEq

/-- Modelled from the spec: one step of the one-time-initialization
protocol. `initResult` is the result the initializer produces when
executed. `start i` is enabled only while the cell is unstarted; `finish`
only while it is running (the runner then returns with the result);
`observe i` only once the cell is done, and yields the cached result. A
caller returns at most once. -/
def applyCellAction {α : Type} [DecidableEq α] (initResult : α)
    (s : OnceState α) : CellAction → Option (OnceState α)
  | .start i =>
    match s.cell with
    | .unstarted =>
      if s.finished.get? i = some none then
        some ⟨.running i, s.execCount + 1, s.finished⟩
      else none
    | _ => none
  | .finish =>
    match s.cell with
    | .running i =>
      some ⟨.done initResult, s.execCount, s.finished.set i (some initResult)⟩
    | _ => none
  | .observe i =>
    match s.cell with
    | .done r =>
      if s.finished.get? i = some none then
        some ⟨s.cell, s.execCount, s.finished.set i (some r)⟩
      else none
    | _ => none

/-- Modelled from the spec: run a whole interleaving (a list of protocol
steps); `none` if some step is not enabled. -/
def runCell {α : Type} [DecidableEq α] (initResult : α) (s : OnceState α) :
    List CellAction → Option (OnceState α)
  | [] => some s
  | a :: rest =>
    match applyCellAction initResult s a with
    | some s1 => runCell initResult s1 rest
    | none => none

/-- Modelled from the spec: the initial state for `n` concurrent callers:
cell unstarted, initializer never executed, no caller returned. -/
def initOnceState (α : Type) (n : Nat) : OnceState α :=
  ⟨.unstarted, 0, List.replicate n none⟩

/-- The result of an implementation factory: a success value or an error,
as cached by the `implInit`/`implErr`/`impl` fields of `component`. -/
inductive InitResult where
  | ok (v : Nat)
  | err (msg : String)
deriving DecidableEq

/-- The canonical interleaving used to exercise `n` concurrent first-time
resolutions: caller 0 wins and runs the initializer, then callers
`1, ..., n-1` read the cached result. -/
def canonicalTrace (n : Nat) : List CellAction :=
  CellAction.start 0 :: CellAction.finish ::
    (List.range (n - 1)).map (fun i => CellAction.observe (i + 1))

/-- The inductive invariant of the one-time-initialization protocol for
`n` callers: the caller table keeps its size; before the initializer has
completed no caller has returned and the initializer has executed as many
times as it has been started (0 or 1); once the cell is done it holds the
initializer result, the initializer has executed exactly once, and every
returned caller returned with that result. -/
def CellInv {α : Type} (initResult : α) (n : Nat) (s : OnceState α) : Prop :=
  s.finished.length = n ∧
  match s.cell with
  | .unstarted => s.execCount = 0 ∧ ∀ x ∈ s.finished, x = none
  | .running _ => s.execCount = 1 ∧ ∀ x ∈ s.finished, x = none
  | .done r => s.execCount = 1 ∧ r = initResult ∧
      ∀ x ∈ s.finished, x = none ∨ x = some initResult

/-- C4: for every `MethodMetrics` `m` and every call
`m.End(h, failed, requestBytes, replyBytes)`, the invocation count
increases by exactly 1, the latency histogram gains exactly one
observation, and the error count increases by 1 if `failed` is true and
is unchanged if `failed` is false. -/
theorem end_increments (m : MethodMetrics) (h : MethodCallHandle)
    (failed : Bool) (requestBytes replyBytes now : Int) :
    (m.End h failed requestBytes replyBytes now).Count.count
      = m.Count.count + 1 ∧
    (m.End h failed requestBytes replyBytes now).Latency.observations.length
      = m.Latency.observations.length + 1 ∧
    (m.End h failed requestBytes replyBytes now).ErrorCount.count
      = m.ErrorCount.count + (if failed then 1 else 0) := by
  cases failed <;> cases hr : m.remote <;>
    simp [MethodMetrics.End, Counter.Inc, Histogram.Put, hr]

/-- C5: for every `MethodMetrics` obtained from `MethodMetricsFor labels`,
`End` records one observation of `requestBytes` in the request-size
histogram and one of `replyBytes` in the reply-size histogram exactly when
`labels.Remote` is true; when it is false both byte-size histograms are
left untouched. -/
theorem end_bytes_iff_remote
    (methodCounts methodErrors : MethodLabels → Counter)
    (methodLatencies methodBytesRequest methodBytesReply :
      MethodLabels → Histogram)
    (labels : MethodLabels) (h : MethodCallHandle) (failed : Bool)
    (requestBytes replyBytes now : Int) :
    ((MethodMetricsFor methodCounts methodErrors methodLatencies
        methodBytesRequest methodBytesReply labels).End
        h failed requestBytes replyBytes now).BytesRequest.observations
      = (if labels.Remote then
          requestBytes :: (methodBytesRequest labels).observations
        else (methodBytesRequest labels).observations) ∧
    ((MethodMetricsFor methodCounts methodErrors methodLatencies
        methodBytesRequest methodBytesReply labels).End
        h failed requestBytes replyBytes now).BytesReply.observations
      = (if labels.Remote then
          replyBytes :: (methodBytesReply labels).observations
        else (methodBytesReply labels).observations) := by
  cases failed <;> cases hr : labels.Remote <;>
    simp [MethodMetricsFor, MethodMetrics.End, Histogram.Put, hr]

/-- C6: `Listener.String` returns the proxy address whenever one is
present (non-empty), regardless of the bound address; with no proxy
address it returns the bound socket address. -/
theorem listener_string_proxy_precedence (l : Listener) :
    (l.proxyAddr ≠ "" → Listener.String l = l.proxyAddr) ∧
    (l.proxyAddr = "" → Listener.String l = l.addr) := by
  refine ⟨fun h => ?_, fun h => ?_⟩ <;> simp [Listener.String, h]

/-- Witness for C6 at two concrete listeners: one with proxy address
`1.2.3.4:9000` over a different bound address, one with no proxy. -/
theorem listener_string_proxy_precedence_witness :
    (("1.2.3.4:9000" : String) ≠ "" ∧
      Listener.String ⟨"0.0.0.0:12345", "1.2.3.4:9000"⟩ = "1.2.3.4:9000") ∧
    (("" : String) = "" ∧
      Listener.String ⟨"5.6.7.8:80", ""⟩ = "5.6.7.8:80") :=
  ⟨⟨by decide,
    (listener_string_proxy_precedence ⟨"0.0.0.0:12345", "1.2.3.4:9000"⟩).1
      (by decide)⟩,
   ⟨rfl, (listener_string_proxy_precedence ⟨"5.6.7.8:80", ""⟩).2 rfl⟩⟩

/-- C8: the single latency observation recorded by `End` for a
`Begin`/`End` pair is the elapsed time in microseconds and is
non-negative, the monotonic clock not running backwards
(`t0 ≤ t1`). -/
theorem latency_observation_nonneg (m : MethodMetrics) (failed : Bool)
    (requestBytes replyBytes t0 t1 : Int) (hmono : t0 ≤ t1) :
    (m.End (m.Begin t0).1 failed requestBytes replyBytes t1).Latency.observations
      = durationMicroseconds (t1 - t0) :: m.Latency.observations ∧
    0 ≤ durationMicroseconds (t1 - t0) := by
  constructor
  · cases failed <;> cases hr : m.remote <;>
      simp [MethodMetrics.Begin, MethodMetrics.End, Histogram.Put, hr]
  · exact Int.tdiv_nonneg (by omega) (by decide)

/-- Witness for C8 at a concrete metrics bundle and the clock readings
2000 and 9000 nanoseconds. -/
theorem latency_observation_nonneg_witness :
    ((2000 : Int) ≤ 9000) ∧
    ((MethodMetrics.End ⟨true, ⟨0⟩, ⟨0⟩, ⟨[]⟩, ⟨[]⟩, ⟨[]⟩⟩
        ((MethodMetrics.Begin ⟨true, ⟨0⟩, ⟨0⟩, ⟨[]⟩, ⟨[]⟩, ⟨[]⟩⟩ 2000).1)
        true 10 20 9000).Latency.observations
      = durationMicroseconds (9000 - 2000) :: [] ∧
      0 ≤ durationMicroseconds (9000 - 2000)) :=
  ⟨by decide,
   latency_observation_nonneg ⟨true, ⟨0⟩, ⟨0⟩, ⟨[]⟩, ⟨[]⟩, ⟨[]⟩⟩
     true 10 20 2000 9000 (by decide)⟩

/-- C9: `Begin` leaves every metric instrument unchanged and only captures
the start timestamp in the returned handle. -/
theorem begin_frame (m : MethodMetrics) (now : Int) :
    (m.Begin now).1.start = now ∧
    (m.Begin now).2.Count = m.Count ∧
    (m.Begin now).2.ErrorCount = m.ErrorCount ∧
    (m.Begin now).2.Latency = m.Latency ∧
    (m.Begin now).2.BytesRequest = m.BytesRequest ∧
    (m.Begin now).2.BytesReply = m.BytesReply :=
  ⟨rfl, rfl, rfl, rfl, rfl, rfl⟩

/-- C10: `Ref.Get` is a pure accessor: it returns exactly the stored
`value` field, and two calls on the same `Ref` return the same handle. -/
theorem ref_get_pure {T : Type} (r : Ref T) :
    r.Get = r.value ∧ r.Get = r.Get :=
  ⟨rfl, rfl⟩

/-- C3 counterexample: the implementation struct that carries no routing
declaration (no `WithRouter` embedding) is not rejected: through the
`routedBy` method promoted from the embedded `componentImpl`
(`src/component.go` lines 144-146) it satisfies the `Unrouted` interface,
i.e. it silently behaves as an unrouted component. -/
theorem routing_declaration_counterexample :
    ¬ hasRoutingDeclaration bareImpl ∧ satisfiesUnrouted bareImpl :=
  ⟨fun h => h rfl, rfl⟩

/-- C3 amended: a component implementation with no `WithRouter` embedding
automatically satisfies `Unrouted` (and no `RoutedBy R`) via the
`routedBy` method of the embedded `componentImpl`; embedding
`WithRouter R` makes it satisfy `RoutedBy R` (and not `Unrouted`), the
shallower method winning Go method-set promotion. Absence of a routing
declaration is therefore a silent unrouted default, not an error. -/
theorem routing_declaration_default (t : ComponentImplType) :
    (t.withRouter = none →
      satisfiesUnrouted t ∧ ∀ r, ¬ satisfiesRoutedBy t r) ∧
    (∀ r, t.withRouter = some r →
      satisfiesRoutedBy t r ∧ ¬ satisfiesUnrouted t) := by
  constructor
  · intro h
    refine ⟨by simp [satisfiesUnrouted, promotedRoutedBy, h], fun r hr => ?_⟩
    simp [satisfiesRoutedBy, promotedRoutedBy, h] at hr
  · intro r h
    refine ⟨by simp [satisfiesRoutedBy, promotedRoutedBy, h], fun hu => ?_⟩
    simp [satisfiesUnrouted, promotedRoutedBy, h] at hu

/-- Witness for C3 amended at the bare implementation and at one that
embeds `WithRouter cacheRouter`. -/
theorem routing_declaration_default_witness :
    (bareImpl.withRouter = none ∧
      satisfiesUnrouted bareImpl ∧
      ¬ satisfiesRoutedBy bareImpl "cacheRouter") ∧
    ((⟨some "cacheRouter"⟩ : ComponentImplType).withRouter
        = some "cacheRouter" ∧
      satisfiesRoutedBy ⟨some "cacheRouter"⟩ "cacheRouter" ∧
      ¬ satisfiesUnrouted (⟨some "cacheRouter"⟩ : ComponentImplType)) :=
  ⟨⟨rfl, ((routing_declaration_default bareImpl).1 rfl).1,
      ((routing_declaration_default bareImpl).1 rfl).2 "cacheRouter"⟩,
   ⟨rfl,
      ((routing_declaration_default ⟨some "cacheRouter"⟩).2
        "cacheRouter" rfl).1,
      ((routing_declaration_default ⟨some "cacheRouter"⟩).2
        "cacheRouter" rfl).2⟩⟩

/-- C7: binding a `WithConfig` section: a config-file key that matches no
field of the config struct is a startup error, and a field of the config
struct with no file key is bound to its zero value. -/
theorem config_binding (tFields file : List (String × ConfigValue)) :
    ((∃ kv ∈ file, ∀ f ∈ tFields, f.1 ≠ kv.1) →
      bindConfig tFields file = .error "unknown config key") ∧
    (∀ res, bindConfig tFields file = .ok res →
      ∀ f ∈ tFields, (∀ kv ∈ file, kv.1 ≠ f.1) → (f.1, f.2) ∈ res) := by
  constructor
  · rintro ⟨kv, hkv, hnone⟩
    unfold bindConfig
    rw [if_neg]
    intro hall
    rw [List.all_eq_true] at hall
    obtain ⟨f, hf, heq⟩ := List.any_eq_true.mp (hall kv hkv)
    exact hnone f hf (by simpa using heq)
  · intro res hres f hf habsent
    unfold bindConfig at hres
    by_cases hall : file.all (fun kv => tFields.any (fun g => g.1 == kv.1))
    · rw [if_pos hall] at hres
      injection hres with hres
      subst hres
      have hfind : file.find? (fun kv => kv.1 == f.1) = none := by
        rw [List.find?_eq_none]
        intro kv hkv
        simpa using habsent kv hkv
      exact List.mem_map.mpr ⟨f, hf, by simp [hfind]⟩
    · rw [if_neg hall] at hres
      exact absurd hres (by simp)

/-- Witness for C7 on the config struct with fields `Size` (zero value 0)
and `Name` (zero value the empty string): a file supplying only
`Size = 1000` binds `Size` to 1000 and `Name` to its zero value, and a
file also supplying the unknown key `Bogus` fails. -/
theorem config_binding_witness :
    (bindConfig [("Size", ConfigValue.int 0), ("Name", ConfigValue.str "")]
        [("Size", ConfigValue.int 1000)]
      = .ok [("Size", ConfigValue.int 1000), ("Name", ConfigValue.str "")]) ∧
    (("Name", ConfigValue.str "")
      ∈ [("Size", ConfigValue.int 1000), ("Name", ConfigValue.str "")]) ∧
    ((∃ kv ∈ [("Size", ConfigValue.int 1000), ("Bogus", ConfigValue.int 1)],
        ∀ f ∈ [("Size", ConfigValue.int 0), ("Name", ConfigValue.str "")],
          f.1 ≠ kv.1) ∧
      bindConfig [("Size", ConfigValue.int 0), ("Name", ConfigValue.str "")]
        [("Size", ConfigValue.int 1000), ("Bogus", ConfigValue.int 1)]
      = .error "unknown config key") :=
  ⟨by rfl,
   (config_binding
      [("Size", ConfigValue.int 0), ("Name", ConfigValue.str "")]
      [("Size", ConfigValue.int 1000)]).2
      [("Size", ConfigValue.int 1000), ("Name", ConfigValue.str "")]
      (by rfl) ("Name", ConfigValue.str "") (by decide) (by decide),
   ⟨by decide,
    (config_binding
      [("Size", ConfigValue.int 0), ("Name", ConfigValue.str "")]
      [("Size", ConfigValue.int 1000), ("Bogus", ConfigValue.int 1)]).1
      (by decide)⟩⟩

/-- The initial state of the protocol satisfies the invariant. -/
theorem cellInv_init {α : Type} (initResult : α) (n : Nat) :
    CellInv initResult n (initOnceState α n) :=
  ⟨List.length_replicate n none,
   rfl, fun _ hx => List.eq_of_mem_replicate hx⟩

/-- Every enabled protocol step preserves the invariant. -/
theorem cellInv_step {α : Type} [DecidableEq α] {initResult : α} {n : Nat}
    {s s1 : OnceState α} {a : CellAction}
    (hinv : CellInv initResult n s)
    (hstep : applyCellAction initResult s a = some s1) :
    CellInv initResult n s1 := by
  obtain ⟨cell, cnt, fin⟩ := s
  obtain ⟨hlen, hcell⟩ := hinv
  cases a with
  | start i =>
    cases cell with
    | unstarted =>
      simp only [applyCellAction] at hstep
      split at hstep
      · obtain ⟨h0, hfin⟩ := hcell
        cases hstep
        replace h0 : cnt = 0 := h0
        subst h0
        exact ⟨hlen, rfl, hfin⟩
      · exact absurd hstep (by simp)
    | running j => exact absurd hstep (by simp [applyCellAction])
    | done r => exact absurd hstep (by simp [applyCellAction])
  | finish =>
    cases cell with
    | unstarted => exact absurd hstep (by simp [applyCellAction])
    | running j =>
      obtain ⟨h1, hfin⟩ := hcell
      simp only [applyCellAction] at hstep
      cases hstep
      refine ⟨by simpa using hlen, h1, rfl, fun x hx => ?_⟩
      rcases List.mem_or_eq_of_mem_set hx with hx' | hx'
      · exact .inl (hfin x hx')
      · exact .inr hx'
    | done r => exact absurd hstep (by simp [applyCellAction])
  | observe i =>
    cases cell with
    | unstarted => exact absurd hstep (by simp [applyCellAction])
    | running j => exact absurd hstep (by simp [applyCellAction])
    | done r =>
      obtain ⟨h1, hr, hfin⟩ := hcell
      simp only [applyCellAction] at hstep
      split at hstep
      · cases hstep
        refine ⟨by simpa using hlen, h1, hr, fun x hx => ?_⟩
        rcases List.mem_or_eq_of_mem_set hx with hx' | hx'
        · exact hfin x hx'
        · exact .inr (hr ▸ hx')
      · exact absurd hstep (by simp)

/-- Every enabled interleaving preserves the invariant. -/
theorem cellInv_run {α : Type} [DecidableEq α] {initResult : α} {n : Nat}
    {s s1 : OnceState α} {trace : List CellAction}
    (hinv : CellInv initResult n s)
    (hrun : runCell initResult s trace = some s1) :
    CellInv initResult n s1 := by
  induction trace generalizing s with
  | nil =>
    simp only [runCell, Option.some.injEq] at hrun
    exact hrun ▸ hinv
  | cons a rest ih =>
    simp only [runCell] at hrun
    cases hstep : applyCellAction initResult s a with
    | none => rw [hstep] at hrun; exact absurd hrun (by simp)
    | some s2 =>
      rw [hstep] at hrun
      exact ih (cellInv_step hinv hstep) hrun

/-- C2: for every number `n` of concurrent callers and every interleaving
of the one-time-initialization protocol from the first-time state: the
initializer executes at most once in every reachable state; while it is
running no caller has returned (all others block); and once all `n`
callers (any `n > 0`, including `n = 100`) have returned, the initializer
has executed exactly once and every caller has returned with the same
single result, the identity produced by the one executed initializer. -/
theorem singleton_resolution {α : Type} [DecidableEq α] (initResult : α)
    (n : Nat) (trace : List CellAction) (s1 : OnceState α)
    (hrun : runCell initResult (initOnceState α n) trace = some s1) :
    s1.execCount ≤ 1 ∧
    (∀ i, s1.cell = .running i → ∀ x ∈ s1.finished, x = none) ∧
    (0 < n → (∀ x ∈ s1.finished, x ≠ none) →
      s1.execCount = 1 ∧ ∀ x ∈ s1.finished, x = some initResult) := by
  have hinv := cellInv_run (cellInv_init initResult n) hrun
  obtain ⟨cell, cnt, fin⟩ := s1
  obtain ⟨hlen, hcell⟩ := hinv
  refine ⟨?_, ?_, ?_⟩
  · cases cell with
    | unstarted => exact Nat.le_trans (Nat.le_of_eq hcell.1) (Nat.zero_le 1)
    | running j => exact Nat.le_of_eq hcell.1
    | done r => exact Nat.le_of_eq hcell.1
  · intro i hi
    cases cell with
    | unstarted => exact absurd hi (by simp)
    | running j => exact hcell.2
    | done r => exact absurd hi (by simp)
  · intro hn hall
    replace hlen : fin.length = n := hlen
    have hpos : 0 < fin.length := by omega
    obtain ⟨x, hx⟩ :=
      List.exists_mem_of_ne_nil fin (List.length_pos.mp hpos)
    cases cell with
    | unstarted => exact absurd (hcell.2 x hx) (hall x hx)
    | running j => exact absurd (hcell.2 x hx) (hall x hx)
    | done r =>
      obtain ⟨h1, hr, hfin⟩ := hcell
      exact ⟨h1, fun y hy => (hfin y hy).resolve_left (hall y hy)⟩

/-- Witness for C2 with `n = 100` concurrent first-time resolutions under
the canonical interleaving: caller 0 executes the initializer (result 37)
while callers 1-99 wait and then read the cached result; all 100 return
with 37 and the execution count is 1. -/
theorem singleton_resolution_witness :
    (0 < 100) ∧
    runCell 37 (initOnceState Nat 100) (canonicalTrace 100)
      = some ⟨.done 37, 1, List.replicate 100 (some 37)⟩ ∧
    (∀ x ∈ List.replicate 100 (some (37 : Nat)), x ≠ none) ∧
    ((1 : Nat) = 1 ∧
      ∀ x ∈ List.replicate 100 (some (37 : Nat)), x = some 37) :=
  ⟨by decide, by decide, by decide,
   (singleton_resolution 37 100 (canonicalTrace 100)
      ⟨.done 37, 1, List.replicate 100 (some 37)⟩ (by decide)).2.2
      (by decide) (by decide)⟩

/-- C1: once a lazy cell has completed with a cached result `r` (success
value or error), every enabled continuation of the protocol leaves the
cached result in place, never executes the initializer again (the
execution count is unchanged, whatever a fresh execution would produce),
and every caller that returns from then on returns with exactly `r`. -/
theorem lazy_cell_result_cached {α : Type} [DecidableEq α]
    (initResult r : α) (s s1 : OnceState α) (trace : List CellAction)
    (hdone : s.cell = .done r)
    (hrun : runCell initResult s trace = some s1) :
    s1.cell = .done r ∧ s1.execCount = s.execCount ∧
    ∀ x ∈ s1.finished, x ∈ s.finished ∨ x = some r := by
  induction trace generalizing s with
  | nil =>
    simp only [runCell, Option.some.injEq] at hrun
    subst hrun
    exact ⟨hdone, rfl, fun x hx => .inl hx⟩
  | cons a rest ih =>
    simp only [runCell] at hrun
    cases a with
    | start i =>
      have happ : applyCellAction initResult s (CellAction.start i) = none := by
        simp [applyCellAction, hdone]
      rw [happ] at hrun
      simp at hrun
    | finish =>
      have happ : applyCellAction initResult s CellAction.finish = none := by
        simp [applyCellAction, hdone]
      rw [happ] at hrun
      simp at hrun
    | observe i =>
      by_cases hget : s.finished[i]? = some none
      · have happ : applyCellAction initResult s (CellAction.observe i)
            = some ⟨s.cell, s.execCount, s.finished.set i (some r)⟩ := by
          simp [applyCellAction, hdone, hget]
        rw [happ] at hrun
        replace hrun : runCell initResult
            ⟨s.cell, s.execCount, s.finished.set i (some r)⟩ rest
              = some s1 := hrun
        obtain ⟨hc, hcount, hmem⟩ :=
          ih ⟨s.cell, s.execCount, s.finished.set i (some r)⟩ hdone hrun
        refine ⟨hc, hcount, fun x hx => ?_⟩
        rcases hmem x hx with hx' | hx'
        · replace hx' : x ∈ s.finished.set i (some r) := hx'
          rcases List.mem_or_eq_of_mem_set hx' with hx'' | hx''
          · exact .inl hx''
          · exact .inr hx''
        · exact .inr hx'
      · have happ : applyCellAction initResult s (CellAction.observe i)
            = none := by
          simp [applyCellAction, hdone, hget]
        rw [happ] at hrun
        simp at hrun

/-- Witness for C1: a cell whose implementation construction has failed
with a cached error, with caller 0 already returned and callers 1 and 2
still to come; both remaining callers return with the identical cached
error and the factory is not re-invoked, even though a fresh execution
would now succeed with a value. -/
theorem lazy_cell_result_cached_witness :
    ((⟨.done (InitResult.err "factory failure"), 1,
        [some (InitResult.err "factory failure"), none, none]⟩ :
        OnceState InitResult).cell
      = .done (InitResult.err "factory failure")) ∧
    runCell (InitResult.ok 5)
        ⟨.done (InitResult.err "factory failure"), 1,
          [some (InitResult.err "factory failure"), none, none]⟩
        [CellAction.observe 1, CellAction.observe 2]
      = some ⟨.done (InitResult.err "factory failure"), 1,
          [some (InitResult.err "factory failure"),
           some (InitResult.err "factory failure"),
           some (InitResult.err "factory failure")]⟩ ∧
    ((⟨.done (InitResult.err "factory failure"), 1,
        [some (InitResult.err "factory failure"),
         some (InitResult.err "factory failure"),
         some (InitResult.err "factory failure")]⟩ :
        OnceState InitResult).cell
      = .done (InitResult.err "factory failure") ∧
      (1 : Nat) = 1 ∧
      ∀ x ∈ [some (InitResult.err "factory failure"),
             some (InitResult.err "factory failure"),
             some (InitResult.err "factory failure")],
        x ∈ [some (InitResult.err "factory failure"), none, none] ∨
          x = some (InitResult.err "factory failure")) :=
  ⟨rfl, by decide,
   lazy_cell_result_cached (InitResult.ok 5)
     (InitResult.err "factory failure")
     ⟨.done (InitResult.err "factory failure"), 1,
       [some (InitResult.err "factory failure"), none, none]⟩
     ⟨.done (InitResult.err "factory failure"), 1,
       [some (InitResult.err "factory failure"),
        some (InitResult.err "factory failure"),
        some (InitResult.err "factory failure")]⟩
     [CellAction.observe 1, CellAction.observe 2] rfl (by decide)⟩

end Weaver
